import Mathlib

/-!
Shallow embedding of the `promise-pool` package (src/src/index.ts).

The pool is a bounded-concurrency launcher.  Its mutable instance state
( `_numConcurrent`, `_maxPending`, `_numActive`, `_isDone`, `_waitingDone`,
`_pending`, `_errors` ) is embedded as the structure `PoolState` below, with
two extra bookkeeping fields that make the asynchronous control flow of the
source explicit:

* `released` records waiters whose deferred callback `taskDone()` has been
  invoked by `_onJoin` but whose suspended `start` continuation
  ( the code after `await task`, namely `++this._numActive; setImmediate(...)` )
  has not run yet.  In the source these two moments are separated by at least
  one microtask turn, because resolving a promise never runs its continuation
  synchronously.
* `running` counts units of work that have been granted a slot and whose
  promise has not settled yet; `_onJoin` fires exactly once per such unit.

The methods `start`, `flush` and `_onJoin` of the class are translated into
the atomic transitions of `stepA`: every synchronous block of the source
(between two suspension points) is one transition.  Waiters are identified by
arrival sequence numbers drawn from `nextId`, so FIFO claims can be stated.
Errors are identified by natural numbers.
-/

/-- Embedding of the JavaScript number type as used by the configuration
coercion: a finite numeric value ( a rational covers every input the claims
touch ), the two infinities, and NaN. -/
inductive JSNum where
  | nan : JSNum
  | inf : JSNum
  | negInf : JSNum
  | fin : ℚ → JSNum
  deriving DecidableEq, Repr

/-- Embedding of the JavaScript values that may appear as a configuration
field: `undefined`, a number, or a string ( any non-number object behaves
like the string case for the `typeof value !== 'number'` test ). -/
inductive JSVal where
  | undef : JSVal
  | num : JSNum → JSVal
  | str : String → JSVal
  deriving DecidableEq, Repr

/-- Truncation of a rational toward zero, as JavaScript ToInt32 truncates the
numeric value before reducing modulo two to the thirty-second power. -/
def ratTrunc (q : ℚ) : Int :=
  if q.num < 0 then -((q.num.natAbs / q.den : Nat) : Int)
  else ((q.num.natAbs / q.den : Nat) : Int)

/-- Embedding of the JavaScript expression `value | 0` ( ECMAScript ToInt32 ):
NaN and the infinities map to zero; a finite value is truncated toward zero,
reduced modulo two to the thirty-second power, and mapped into the signed
thirty-two bit range. -/
def toInt32 (n : JSNum) : Int :=
  match n with
  | .nan => 0
  | .inf => 0
  | .negInf => 0
  | .fin q =>
      let t := ratTrunc q
      let m := t % (4294967296 : Int)
      if 2147483648 ≤ m then m - 4294967296 else m

/-- Embedding of the JavaScript comparison `value <= 0` on a number: false
for NaN, true for negative infinity, false for positive infinity, and the
rational comparison otherwise. -/
def jsLeZero (n : JSNum) : Bool :=
  match n with
  | .nan => false
  | .inf => false
  | .negInf => true
  | .fin q => decide (q ≤ 0)

/-- Translation of the helper `asPositiveInteger(value, defaultValue,
minValue)` of src/src/index.ts: non-numbers fall back to the default;
non-positive numbers clamp to the minimum; otherwise the value is truncated
with `| 0` and the sign of the truncation decides between the minimum, the
truncated value, and a trailing default fallback commented `NaN` in the
source. -/
def asPositiveInteger (value : JSVal) (defaultValue minValue : Int) : Int :=
  match value with
  | .num n =>
      if jsLeZero n then minValue
      else
        let v := toInt32 n
        if v ≤ 0 then minValue
        else if 0 < v then v
        else defaultValue
  | _ => defaultValue

/-- Argument accepted by the `PromisePool` constructor: nothing ( undefined ),
a bare number, or an options object carrying the two recognized fields. -/
inductive CtorArg where
  | undefA : CtorArg
  | numA : JSNum → CtorArg
  | objA : JSVal → JSVal → CtorArg
  deriving DecidableEq, Repr

/-- Embedding of the JavaScript truthiness test `!options` on a constructor
argument: `undefined`, the number zero and NaN are falsy; objects are truthy. -/
def ctorFalsy (arg : CtorArg) : Bool :=
  match arg with
  | .undefA => true
  | .numA n => n = .fin 0 ∨ n = .nan
  | .objA _ _ => false

/-- Translation of the constructor normalization of src/src/index.ts: a falsy
argument becomes the empty options object, a number becomes
`\x7b numConcurrent: options \x7d`, and an object is used as is.  The result
is the pair ( numConcurrent field, maxPending field ). -/
def optsOf (arg : CtorArg) : JSVal × JSVal :=
  if ctorFalsy arg then (.undef, .undef)
  else
    match arg with
    | .undefA => (.undef, .undef)
    | .numA n => (.num n, .undef)
    | .objA a b => (a, b)

/-- Instance state of a `PromisePool`, plus the two bookkeeping fields
`released` and `running` described in the module docstring.  Waiters are
identified by arrival sequence numbers, errors by natural numbers. -/
structure PoolState where
  numConcurrent : Int
  maxPending : Int
  numActive : Int
  isDone : Bool
  waitingDone : Bool
  pending : List Nat
  errors : List Nat
  released : List Nat
  running : Nat
  nextId : Nat
  deriving DecidableEq, Repr

/-- Translation of the constructor body of src/src/index.ts: both limits are
coerced with `asPositiveInteger` ( defaults four and one, minimum one ) and
every mutable field starts empty. -/
def initState (arg : CtorArg) : PoolState :=
  { numConcurrent := asPositiveInteger (optsOf arg).1 4 1
    maxPending := asPositiveInteger (optsOf arg).2 1 1
    numActive := 0
    isDone := false
    waitingDone := false
    pending := []
    errors := []
    released := []
    running := 0
    nextId := 0 }

/-- Atomic transitions of the pool: a producer calls `start` ( with a callable
or non-callable argument ), a running unit settles ( with an optional
failure ), the suspended continuation of a released waiter resumes, or a
producer calls `flush`. -/
inductive Act where
  | start : Bool → Act
  | settle : Option Nat → Act
  | resume : Act
  | flush : Act
  deriving DecidableEq, Repr

/-- Observation produced by one transition: the synchronous outcome of a
`start` call ( immediate admission, suspension as a waiter with its arrival
number, or one of the three synchronous failures ), the bookkeeping of a
settlement ( the released waiter, if any, and the error list delivered to
woken `flush` callers when the `done` event fires ), the resumption of a
waiter, the outcome of a `flush` call, or `blocked` when the transition is
not enabled in the current state. -/
inductive Obs where
  | ok : Obs
  | queued : Nat → Obs
  | poolClosed : Obs
  | invalidTask : Obs
  | queueOverflow : Obs
  | settledU : Option Nat → Option (List Nat) → Obs
  | resumed : Nat → Obs
  | flushNow : List Nat → Obs
  | flushWait : Obs
  | blocked : Obs
  deriving DecidableEq, Repr

/-- One transition of the pool, translated line by line from `start`,
`_onJoin` and `flush` of src/src/index.ts. -/
def stepA (s : PoolState) (a : Act) : Obs × PoolState :=
  match a with
  | .start c =>
      if s.isDone then (.poolClosed, s)
      else if !c then (.invalidTask, s)
      else if s.numConcurrent ≤ s.numActive then
        if s.maxPending ≤ (s.pending.length : Int) then (.queueOverflow, s)
        else
          (.queued s.nextId,
            { s with pending := s.pending ++ [s.nextId], nextId := s.nextId + 1 })
      else (.ok, { s with numActive := s.numActive + 1, running := s.running + 1 })
  | .settle err =>
      if s.running = 0 then (.blocked, s)
      else
        let errors1 := match err with
          | some e => s.errors ++ [e]
          | none => s.errors
        let s1 : PoolState :=
          { s with errors := errors1, numActive := s.numActive - 1,
                   running := s.running - 1 }
        match s.pending with
        | w :: rest =>
            (.settledU (some w) none,
              { s1 with pending := rest, released := s1.released ++ [w] })
        | [] =>
            if s1.numActive = 0 ∧ s1.waitingDone then
              (.settledU none (some errors1),
                { s1 with isDone := true, waitingDone := false })
            else (.settledU none none, s1)
  | .resume =>
      match s.released with
      | [] => (.blocked, s)
      | r :: rest =>
          (.resumed r,
            { s with released := rest, numActive := s.numActive + 1,
                     running := s.running + 1 })
  | .flush =>
      if s.numActive = 0 then (.flushNow s.errors, { s with isDone := true })
      else if !s.isDone then (.flushWait, { s with waitingDone := true })
      else (.flushNow s.errors, s)

/-- State after executing a list of transitions. -/
def execState (s : PoolState) : List Act → PoolState
  | [] => s
  | a :: rest => execState (stepA s a).2 rest

/-- Observations produced while executing a list of transitions. -/
def obsTrace (s : PoolState) : List Act → List Obs
  | [] => []
  | a :: rest => (stepA s a).1 :: obsTrace (stepA s a).2 rest

/-- Reachability from a freshly constructed pool. -/
def Reachable (arg : CtorArg) (s : PoolState) : Prop :=
  ∃ acts : List Act, execState (initState arg) acts = s

/-- Structural invariant of the pool state: the active counter equals the
number of running units, the waiter queue respects the configured limit, the
arrival numbers of released and queued waiters are strictly increasing
( released ones first ), and all of them are below the next fresh number. -/
def PoolInv (s : PoolState) : Prop :=
  s.numActive = (s.running : Int)
  ∧ (s.pending.length : Int) ≤ s.maxPending
  ∧ List.Pairwise (· < ·) (s.released ++ s.pending)
  ∧ ∀ x ∈ s.released ++ s.pending, x < s.nextId

/-- Released waiter recorded by an observation, if any. -/
def relOf (o : Obs) : Option Nat :=
  match o with
  | .settledU (some w) _ => some w
  | _ => none

/-- Sequence of waiter arrival numbers released along an execution, in
release order. -/
def relList (s : PoolState) (acts : List Act) : List Nat :=
  (obsTrace s acts).filterMap relOf


/-- Pool constructed with capacity one and queue limit one. -/
def argOneOne : CtorArg := .objA (.num (.fin 1)) (.num (.fin 1))

/-- Pool constructed with capacity two and queue limit one. -/
def argTwoOne : CtorArg := .objA (.num (.fin 2)) (.num (.fin 1))

/-- Pool constructed with capacity one and queue limit two. -/
def argOneTwo : CtorArg := .objA (.num (.fin 1)) (.num (.fin 2))


/-- Lower bound for the configuration coercion: with a default and a minimum
of at least one, the coerced limit is at least one. -/
theorem one_le_asPositiveInteger (v : JSVal) (d m : Int) (hd : 1 ≤ d) (hm : 1 ≤ m) :
    1 ≤ asPositiveInteger v d m := by
  cases v with
  | num n =>
      simp only [asPositiveInteger]
      split_ifs with h1 h2 h3
      · exact hm
      · exact hm
      · omega
      · exact hd
  | undef => exact hd
  | str t => exact hd

/-- Invariant at construction time. -/
theorem inv_initState (arg : CtorArg) : PoolInv (initState arg) := by
  have h1 : 1 ≤ asPositiveInteger (optsOf arg).2 1 1 :=
    one_le_asPositiveInteger _ 1 1 le_rfl le_rfl
  refine ⟨rfl, ?_, by simp [initState], by simp [initState]⟩
  simp only [initState, List.length_nil, Nat.cast_zero]
  omega

/-- Preservation of the invariant by every transition. -/
theorem inv_stepA (s : PoolState) (a : Act) (h : PoolInv s) : PoolInv (stepA s a).2 := by
  obtain ⟨hact, hlen, hpw, hlt⟩ := h
  cases a with
  | start c =>
      simp only [stepA]
      split_ifs with h1 h2 h3 h4
      · exact ⟨hact, hlen, hpw, hlt⟩
      · exact ⟨hact, hlen, hpw, hlt⟩
      · exact ⟨hact, hlen, hpw, hlt⟩
      · refine ⟨hact, ?_, ?_, ?_⟩
        · simp only [List.length_append, List.length_singleton]
          push_cast
          omega
        · rw [← List.append_assoc]
          refine List.pairwise_append.mpr ⟨hpw, List.pairwise_singleton _ _, ?_⟩
          intro x hx y hy
          rw [List.mem_singleton] at hy
          subst hy
          exact hlt x hx
        · intro x hx
          rw [← List.append_assoc, List.mem_append] at hx
          rcases hx with hx | hx
          · exact Nat.lt_succ_of_lt (hlt x hx)
          · rw [List.mem_singleton] at hx
            subst hx
            exact Nat.lt_succ_self _
      · refine ⟨?_, hlen, hpw, hlt⟩
        dsimp only
        push_cast
        omega
  | settle err =>
      rcases hsp : s.pending with _ | ⟨w, rest⟩
      · simp only [stepA, hsp]
        split_ifs with h1 h2
        · exact ⟨hact, hlen, hpw, hlt⟩
        · refine ⟨?_, by simpa [hsp] using hlen, by simpa [hsp] using hpw,
            by simpa [hsp] using hlt⟩
          simp only
          omega
        · refine ⟨?_, by simpa [hsp] using hlen, by simpa [hsp] using hpw,
            by simpa [hsp] using hlt⟩
          simp only
          omega
      · simp only [stepA, hsp]
        split_ifs with h1
        · exact ⟨hact, hlen, hpw, hlt⟩
        · rw [hsp] at hpw hlt hlen
          refine ⟨?_, ?_, ?_, ?_⟩
          · simp only
            omega
          · simp only [List.length_cons] at hlen ⊢
            push_cast at hlen ⊢
            omega
          · simp only
            rw [List.append_assoc, List.singleton_append]
            exact hpw
          · intro x hx
            simp only at hx
            rw [List.append_assoc, List.singleton_append] at hx
            exact hlt x hx
  | resume =>
      rcases hsr : s.released with _ | ⟨r, rest⟩
      · simp only [stepA, hsr]
        exact ⟨hact, hlen, hpw, hlt⟩
      · simp only [stepA, hsr]
        rw [hsr, List.cons_append, List.pairwise_cons] at hpw
        refine ⟨?_, hlen, hpw.2, ?_⟩
        · dsimp only
          push_cast
          omega
        · intro x hx
          dsimp only at hx
          refine hlt x ?_
          rw [hsr, List.cons_append]
          exact List.mem_cons_of_mem _ hx
  | flush =>
      simp only [stepA]
      split_ifs with h1 h2
      · exact ⟨hact, hlen, hpw, hlt⟩
      · exact ⟨hact, hlen, hpw, hlt⟩
      · exact ⟨hact, hlen, hpw, hlt⟩

/-- Invariant after any execution. -/
theorem inv_execState (s : PoolState) (acts : List Act) (h : PoolInv s) :
    PoolInv (execState s acts) := by
  induction acts generalizing s with
  | nil => exact h
  | cons a rest ih => exact ih _ (inv_stepA s a h)

/-- Every reachable state satisfies the invariant. -/
theorem reachable_inv (arg : CtorArg) (s : PoolState) (h : Reachable arg s) : PoolInv s := by
  obtain ⟨acts, hacts⟩ := h
  rw [← hacts]
  exact inv_execState _ _ (inv_initState arg)

/-- The closed flag is never reset by a transition. -/
theorem isDone_stepA (s : PoolState) (a : Act) (h : s.isDone = true) :
    (stepA s a).2.isDone = true := by
  cases a with
  | start c =>
      simp only [stepA]
      split_ifs <;> simpa using h
  | settle err =>
      rcases hsp : s.pending with _ | ⟨w, rest⟩ <;> simp only [stepA, hsp] <;>
        split_ifs <;> simpa using h
  | resume =>
      rcases hsr : s.released with _ | ⟨r, rest⟩ <;> simp only [stepA, hsr] <;>
        simpa using h
  | flush =>
      simp only [stepA]
      split_ifs <;> simpa using h

/-- The closed flag is never reset along any execution. -/
theorem isDone_execState (s : PoolState) (acts : List Act) (h : s.isDone = true) :
    (execState s acts).isDone = true := by
  induction acts generalizing s with
  | nil => exact h
  | cons a rest ih => exact ih _ (isDone_stepA s a h)

/-- Shape of one transition with respect to the waiter queue: it leaves the
queue unchanged, appends the fresh arrival number at the tail, or removes the
head and reports it as released. -/
theorem stepA_shape (s : PoolState) (a : Act) :
    ((stepA s a).2.pending = s.pending ∧ relOf (stepA s a).1 = none)
    ∨ ((stepA s a).2.pending = s.pending ++ [s.nextId] ∧ relOf (stepA s a).1 = none)
    ∨ (∃ w rest, s.pending = w :: rest ∧ (stepA s a).2.pending = rest
        ∧ relOf (stepA s a).1 = some w) := by
  cases a with
  | start c =>
      simp only [stepA]
      split_ifs
      · exact Or.inl ⟨rfl, rfl⟩
      · exact Or.inl ⟨rfl, rfl⟩
      · exact Or.inl ⟨rfl, rfl⟩
      · exact Or.inr (Or.inl ⟨rfl, rfl⟩)
      · exact Or.inl ⟨rfl, rfl⟩
  | settle err =>
      rcases hsp : s.pending with _ | ⟨w, rest⟩
      · simp only [stepA, hsp]
        split_ifs
        · exact Or.inl ⟨hsp, rfl⟩
        · exact Or.inl ⟨by simp [hsp], rfl⟩
        · exact Or.inl ⟨by simp [hsp], rfl⟩
      · simp only [stepA, hsp]
        split_ifs
        · exact Or.inl ⟨hsp, rfl⟩
        · exact Or.inr (Or.inr ⟨w, rest, rfl, rfl, rfl⟩)
  | resume =>
      rcases hsr : s.released with _ | ⟨r, rest⟩ <;>
        simp [stepA, hsr, relOf]
  | flush =>
      simp only [stepA]
      split_ifs
      · exact Or.inl ⟨rfl, rfl⟩
      · exact Or.inl ⟨rfl, rfl⟩
      · exact Or.inl ⟨rfl, rfl⟩

/-- Fresh arrival numbers never decrease. -/
theorem nextId_stepA (s : PoolState) (a : Act) : s.nextId ≤ (stepA s a).2.nextId := by
  cases a with
  | start c =>
      simp only [stepA]
      split_ifs <;> simp
  | settle err =>
      rcases hsp : s.pending with _ | ⟨w, rest⟩ <;> simp only [stepA, hsp] <;>
        split_ifs <;> simp
  | resume =>
      rcases hsr : s.released with _ | ⟨r, rest⟩ <;> simp only [stepA, hsr] <;> simp
  | flush =>
      simp only [stepA]
      split_ifs <;> simp

/-- Core FIFO lemma: along any execution from a state satisfying the
invariant, the released arrival numbers form a strictly increasing sequence,
and they are bounded below by any lower bound of the current queue that also
bounds the fresh counter. -/
theorem relList_chain (acts : List Act) : ∀ (s : PoolState) (b : Nat), PoolInv s →
    (∀ x ∈ s.pending, b ≤ x) → b ≤ s.nextId →
    List.Chain' (· < ·) (relList s acts) ∧ ∀ x ∈ relList s acts, b ≤ x := by
  induction acts with
  | nil =>
      intro s b _ _ _
      simp [relList, obsTrace]
  | cons a rest ih =>
      intro s b hI hpb hbn
      have hI' := inv_stepA s a hI
      have hnm := nextId_stepA s a
      rcases stepA_shape s a with ⟨hp, hr⟩ | ⟨hp, hr⟩ | ⟨w, rest', hsp, hp, hr⟩
      · have hrl : relList s (a :: rest) = relList (stepA s a).2 rest := by
          simp [relList, obsTrace, List.filterMap_cons, hr]
        rw [hrl]
        exact ih (stepA s a).2 b hI' (by rw [hp]; exact hpb) (le_trans hbn hnm)
      · have hrl : relList s (a :: rest) = relList (stepA s a).2 rest := by
          simp [relList, obsTrace, List.filterMap_cons, hr]
        rw [hrl]
        refine ih (stepA s a).2 b hI' ?_ (le_trans hbn hnm)
        intro x hx
        rw [hp, List.mem_append] at hx
        rcases hx with hx | hx
        · exact hpb x hx
        · rw [List.mem_singleton] at hx
          subst hx
          exact hbn
      · have hrl : relList s (a :: rest) = w :: relList (stepA s a).2 rest := by
          simp [relList, obsTrace, List.filterMap_cons, hr]
        rw [hrl]
        have hwpend : w ∈ s.pending := by rw [hsp]; exact List.mem_cons_self _ _
        have hbw : b ≤ w := hpb w hwpend
        have hwrest : ∀ x ∈ rest', w < x := by
          have hpw := hI.2.2.1
          rw [hsp] at hpw
          have := (List.pairwise_append.mp hpw).2.1
          exact (List.pairwise_cons.mp this).1
        have hwn : w < s.nextId := by
          refine hI.2.2.2 w ?_
          rw [List.mem_append]
          exact Or.inr hwpend
        have hmain := ih (stepA s a).2 (w + 1) hI'
          (by rw [hp]; intro x hx; exact hwrest x hx)
          (le_trans hwn hnm)
        constructor
        · rw [List.chain'_cons']
          refine ⟨?_, hmain.1⟩
          intro h hh
          have : h ∈ relList (stepA s a).2 rest := List.mem_of_mem_head? hh
          exact Nat.lt_of_lt_of_le (Nat.lt_succ_self w) (hmain.2 h this)
        · intro x hx
          rcases List.mem_cons.mp hx with hx | hx
          · subst hx
            exact hbw
          · exact le_trans hbw (le_trans (Nat.le_succ w) (hmain.2 x hx))

/-- Claim C1, counterexample: with capacity one and queue limit one, admit a
unit, call `flush` ( the pool enters Draining: the drain wait is pending,
`isDone` is still false, one unit is active ), then call `start` again.  The
call does not fail with PoolClosed: it is accepted and suspended as waiter
zero, so a `start` call succeeds after the lifecycle state left Open. -/
theorem c1_counterexample :
    obsTrace (initState argOneOne) [.start true, .flush, .start true]
      = [.ok, .flushWait, .queued 0]
    ∧ (execState (initState argOneOne) [.start true, .flush]).waitingDone = true
    ∧ (execState (initState argOneOne) [.start true, .flush]).isDone = false
    ∧ 0 < (execState (initState argOneOne) [.start true, .flush]).numActive := by
  decide

/-- Claim C1 (amended): a `start` call fails with PoolClosed exactly when the
pool has entered Closed ( `isDone`, i.e. `flush` has resolved ); once Closed,
every subsequent `start` call after any further activity still fails with
PoolClosed and leaves the state unchanged.  While the pool is merely draining
( `flush` called, wait pending, `isDone` false ) `start` is not rejected. -/
theorem c1_amended_start_rejected (s : PoolState) (c : Bool) :
    ((stepA s (.start c)).1 = .poolClosed ↔ s.isDone = true)
    ∧ (s.isDone = true → ∀ acts : List Act,
        (stepA (execState s acts) (.start c)).1 = .poolClosed
        ∧ (stepA (execState s acts) (.start c)).2 = execState s acts) := by
  constructor
  · constructor
    · intro h
      cases hd : s.isDone with
      | true => rfl
      | false =>
          exfalso
          simp only [stepA, hd] at h
          split_ifs at h <;> simp_all
    · intro h
      simp [stepA, h]
  · intro h acts
    have hd := isDone_execState s acts h
    constructor
    · simp [stepA, hd]
    · simp [stepA, hd]

/-- Witness for the amended claim C1: a pool that went through one unit and a
resolved `flush` rejects a later `start` with PoolClosed. -/
theorem c1_witness :
    (stepA (execState (execState (initState argOneOne)
        [.start true, .settle none, .flush]) [.flush]) (.start true)).1 = .poolClosed :=
  ((c1_amended_start_rejected
      (execState (initState argOneOne) [.start true, .settle none, .flush]) true).2
    (by decide) [.flush]).1

/-- Claim C2, failing trace: capacity two, queue limit one.  Two units are
running, a third admission is suspended as waiter zero, and `flush` is
waiting.  The two running units then settle back to back: the first
settlement decrements `active` and releases waiter zero ( its suspended
continuation has not resumed yet ), the second settlement observes
`active = 0`, closes the pool and wakes `flush` with an empty error list
even though the released waiter still exists and has not run.  The decrement
for the finished unit and the increment for the released waiter are thus
separated by observable states, contrary to the claim. -/
theorem c2_bug_eval :
    obsTrace (initState argTwoOne)
      [.start true, .start true, .start true, .flush, .settle none, .settle none]
      = [.ok, .ok, .queued 0, .flushWait, .settledU (some 0) none,
          .settledU none (some [])]
    ∧ (execState (initState argTwoOne)
        [.start true, .start true, .start true, .flush, .settle none, .settle none]).released
        = [0]
    ∧ (execState (initState argTwoOne)
        [.start true, .start true, .start true, .flush, .settle none, .settle none]).numActive
        = 0
    ∧ (execState (initState argTwoOne)
        [.start true, .start true, .start true, .flush, .settle none, .settle none]).isDone
        = true := by
  decide

/-- Claim C3, counterexample: with capacity one and queue limit one, admit a
unit, queue a waiter, then call `flush` so the pool is Draining ( not Open ).
A further `start` call still raises QueueOverflow, although the claim states
the overflow is raised exactly when the pool is Open. -/
theorem c3_counterexample :
    obsTrace (initState argOneOne) [.start true, .start true, .flush, .start true]
      = [.ok, .queued 0, .flushWait, .queueOverflow]
    ∧ (execState (initState argOneOne) [.start true, .start true, .flush]).waitingDone
        = true
    ∧ (execState (initState argOneOne) [.start true, .start true, .flush]).isDone
        = false := by
  decide

/-- Claim C3 (amended): in every reachable state, a `start` call raises
QueueOverflow exactly when the pool is not yet Closed ( `isDone` false, i.e.
Open or Draining ), the supplied work is callable, the active count is at
least the capacity, and the waiter queue holds exactly `queueLimit` entries;
the failure is synchronous and leaves the state unchanged. -/
theorem c3_amended_overflow_iff (arg : CtorArg) (s : PoolState)
    (h : Reachable arg s) (c : Bool) :
    ((stepA s (.start c)).1 = .queueOverflow ↔
      (s.isDone = false ∧ c = true ∧ s.numConcurrent ≤ s.numActive
        ∧ (s.pending.length : Int) = s.maxPending))
    ∧ ((stepA s (.start c)).1 = .queueOverflow → (stepA s (.start c)).2 = s) := by
  have hlen := (reachable_inv arg s h).2.1
  constructor
  · constructor
    · intro hobs
      simp only [stepA] at hobs
      split_ifs at hobs with h1 h2 h3 h4
      refine ⟨by simpa using h1, ?_, h3, le_antisymm hlen h4⟩
      revert h2
      cases c <;> simp
    · rintro ⟨hd, hc, hsat, hfull⟩
      simp only [stepA]
      rw [if_neg (by simp [hd]), if_neg (by simp [hc]), if_pos hsat,
        if_pos (le_of_eq hfull.symm)]
  · intro hobs
    simp only [stepA] at hobs ⊢
    split_ifs at hobs <;> simp_all

/-- Witness for the amended claim C3: the draining, saturated, queue-full
pool of the counterexample raises QueueOverflow and is left unchanged. -/
theorem c3_witness :
    (stepA (execState (initState argOneOne) [.start true, .start true, .flush])
        (.start true)).1 = .queueOverflow :=
  (c3_amended_overflow_iff argOneOne
      (execState (initState argOneOne) [.start true, .start true, .flush])
      ⟨[.start true, .start true, .flush], rfl⟩ true).1.mpr (by decide)

/-- Claim C4, failing trace: capacity one, queue limit one.  Admit unit A,
queue waiter zero, settle A ( the settlement releases waiter zero, but the
resumption of its suspended `start` continuation is a separate later step ).
In the gap a fresh `start` call sees `active = 0 < 1` and is admitted
immediately; then the released waiter resumes and also increments the
counter.  The pool ends with `active = 2` above its capacity one, and with
two units scheduled to run concurrently. -/
theorem c4_bug_eval :
    (execState (initState argOneOne)
        [.start true, .start true, .settle none, .start true, .resume]).numActive = 2
    ∧ (initState argOneOne).numConcurrent = 1
    ∧ (execState (initState argOneOne)
        [.start true, .start true, .settle none, .start true, .resume]).running = 2 := by
  decide

/-- Claim C8, failing trace: capacity one, queue limit one.  Admit unit A,
queue waiter zero, settle A ( releasing waiter zero ).  A `flush` call now
sees `active = 0`, closes the pool and resolves immediately with the empty
error collection.  The released waiter then resumes, runs and fails with
error seven, and a second `flush` call resolves with the collection
containing seven: two `flush` resolutions return different collections, and
pool state ( the error list ) changed after the first `flush` resolved. -/
theorem c8_bug_eval :
    obsTrace (initState argOneOne)
      [.start true, .start true, .settle none, .flush, .resume, .settle (some 7), .flush]
      = [.ok, .queued 0, .settledU (some 0) none, .flushNow [], .resumed 0,
          .settledU none none, .flushNow [7]] := by
  decide

/-- Claim C5: in every reachable state the waiter queue holds at most
`queueLimit` entries; a saturated admission attempted while the queue is full
fails with QueueOverflow and changes nothing, rather than being queued; and
no queued or released admission request is ever silently dropped by a
transition: a queued waiter stays queued or moves to the released set, and a
released waiter stays released until the transition that resumes it. -/
theorem c5_queue_bounded (arg : CtorArg) (s : PoolState) (h : Reachable arg s) :
    ((s.pending.length : Int) ≤ s.maxPending)
    ∧ (∀ c : Bool, s.isDone = false → c = true → s.numConcurrent ≤ s.numActive →
        s.maxPending ≤ (s.pending.length : Int) →
        (stepA s (.start c)).1 = .queueOverflow ∧ (stepA s (.start c)).2 = s)
    ∧ (∀ a : Act, ∀ w ∈ s.pending,
        w ∈ (stepA s a).2.pending ∨ w ∈ (stepA s a).2.released)
    ∧ (∀ a : Act, ∀ w ∈ s.released,
        w ∈ (stepA s a).2.released ∨ (stepA s a).1 = .resumed w) := by
  refine ⟨(reachable_inv arg s h).2.1, ?_, ?_, ?_⟩
  · intro c hd hc hsat hfull
    subst hc
    constructor
    · simp only [stepA]
      rw [if_neg (by simp [hd]), if_neg (by simp), if_pos hsat, if_pos hfull]
    · simp only [stepA]
      rw [if_neg (by simp [hd]), if_neg (by simp), if_pos hsat, if_pos hfull]
  · intro a w hw
    cases a with
    | start c =>
        simp only [stepA]
        split_ifs
        · exact Or.inl hw
        · exact Or.inl hw
        · exact Or.inl hw
        · exact Or.inl (List.mem_append_left _ hw)
        · exact Or.inl hw
    | settle err =>
        rcases hsp : s.pending with _ | ⟨w0, rest⟩
        · rw [hsp] at hw
          exact absurd hw (List.not_mem_nil w)
        · simp only [stepA, hsp]
          split_ifs
          · exact Or.inl hw
          · rw [hsp] at hw
            rcases List.mem_cons.mp hw with hw | hw
            · subst hw
              exact Or.inr (List.mem_append_right _ (List.mem_singleton.mpr rfl))
            · exact Or.inl hw
    | resume =>
        rcases hsr : s.released with _ | ⟨r, rest⟩ <;>
          simp only [stepA, hsr] <;> exact Or.inl hw
    | flush =>
        simp only [stepA]
        split_ifs
        · exact Or.inl hw
        · exact Or.inl hw
        · exact Or.inl hw
  · intro a w hw
    cases a with
    | start c =>
        simp only [stepA]
        split_ifs
        · exact Or.inl hw
        · exact Or.inl hw
        · exact Or.inl hw
        · exact Or.inl hw
        · exact Or.inl hw
    | settle err =>
        rcases hsp : s.pending with _ | ⟨w0, rest⟩
        · simp only [stepA, hsp]
          split_ifs
          · exact Or.inl hw
          · exact Or.inl hw
          · exact Or.inl hw
        · simp only [stepA, hsp]
          split_ifs
          · exact Or.inl hw
          · exact Or.inl (List.mem_append_left _ hw)
    | resume =>
        rcases hsr : s.released with _ | ⟨r, rest⟩
        · rw [hsr] at hw
          exact absurd hw (List.not_mem_nil w)
        · simp only [stepA, hsr]
          rw [hsr] at hw
          rcases List.mem_cons.mp hw with hw | hw
          · subst hw
            exact Or.inr rfl
          · exact Or.inl hw
    | flush =>
        simp only [stepA]
        split_ifs
        · exact Or.inl hw
        · exact Or.inl hw
        · exact Or.inl hw

/-- Witness for claim C5: a saturated capacity-one pool with its single queue
slot occupied rejects a further admission with QueueOverflow. -/
theorem c5_witness :
    (stepA (execState (initState argOneOne) [.start true, .start true])
        (.start true)).1 = .queueOverflow :=
  ((c5_queue_bounded argOneOne (execState (initState argOneOne) [.start true, .start true])
      ⟨[.start true, .start true], rfl⟩).2.1 true (by decide) rfl (by decide)
      (by decide)).1

/-- Claim C6: waiters are released strictly in FIFO arrival order.  Along any
execution of a freshly constructed pool the sequence of released arrival
numbers is strictly increasing; in any reachable state a settlement with a
non-empty queue releases exactly the head of the queue, which is older than
every other queued waiter; and the resumption step admits the front released
waiter, which is older than every other released or queued waiter. -/
theorem c6_fifo_release (arg : CtorArg) (acts : List Act) (s : PoolState)
    (h : Reachable arg s) :
    List.Chain' (· < ·) (relList (initState arg) acts)
    ∧ (∀ w rest err, s.pending = w :: rest → s.running ≠ 0 →
        (stepA s (.settle err)).1 = .settledU (some w) none ∧ ∀ x ∈ rest, w < x)
    ∧ (∀ r rrest, s.released = r :: rrest →
        (stepA s .resume).1 = .resumed r ∧ ∀ x ∈ rrest ++ s.pending, r < x) := by
  refine ⟨?_, ?_, ?_⟩
  · exact (relList_chain acts (initState arg) 0 (inv_initState arg)
      (by simp [initState]) (by simp [initState])).1
  · intro w rest err hsp hr
    constructor
    · simp only [stepA, hsp]
      rw [if_neg hr]
    · have hpw := (reachable_inv arg s h).2.2.1
      rw [hsp] at hpw
      exact (List.pairwise_cons.mp (List.pairwise_append.mp hpw).2.1).1
  · intro r rrest hsr
    constructor
    · simp [stepA, hsr]
    · have hpw := (reachable_inv arg s h).2.2.1
      rw [hsr, List.cons_append] at hpw
      exact (List.pairwise_cons.mp hpw).1

/-- Witness for claim C6: with capacity one and queue limit two, two waiters
are queued in arrival order; a settlement releases waiter zero, the oldest. -/
theorem c6_witness :
    (stepA (execState (initState argOneTwo) [.start true, .start true, .start true])
        (.settle none)).1 = .settledU (some 0) none :=
  ((c6_fifo_release argOneTwo []
      (execState (initState argOneTwo) [.start true, .start true, .start true])
      ⟨[.start true, .start true, .start true], rfl⟩).2.1 0 [1] none
      (by decide) (by decide)).1

/-- Claim C7: the failure of a unit of work is appended to the error
collection at settlement time ( so the collection is ordered by settlement,
not by submission ); a successful settlement and every non-settlement
transition leave the collection unchanged; the synchronous outcome of a
`start` call is only ever admission, suspension, or one of the three
admission failures, never the failure of a unit of work; and `flush` on an
idle pool returns exactly the accumulated collection. -/
theorem c7_task_failure_capture (s : PoolState) :
    (∀ e : Nat, s.running ≠ 0 →
        (stepA s (.settle (some e))).2.errors = s.errors ++ [e])
    ∧ (s.running ≠ 0 → (stepA s (.settle none)).2.errors = s.errors)
    ∧ (∀ a : Act, (∀ e : Nat, a ≠ .settle (some e)) → (stepA s a).2.errors = s.errors)
    ∧ (∀ c : Bool, (stepA s (.start c)).1 = .ok
        ∨ (∃ w, (stepA s (.start c)).1 = .queued w)
        ∨ (stepA s (.start c)).1 = .poolClosed
        ∨ (stepA s (.start c)).1 = .invalidTask
        ∨ (stepA s (.start c)).1 = .queueOverflow)
    ∧ (s.numActive = 0 → (stepA s .flush).1 = .flushNow s.errors) := by
  refine ⟨?_, ?_, ?_, ?_, ?_⟩
  · intro e hr
    rcases hsp : s.pending with _ | ⟨w0, rest⟩ <;> simp only [stepA, hsp] <;>
      rw [if_neg hr]
    · split_ifs <;> rfl
  · intro hr
    rcases hsp : s.pending with _ | ⟨w0, rest⟩ <;> simp only [stepA, hsp] <;>
      rw [if_neg hr]
    · split_ifs <;> rfl
  · intro a ha
    cases a with
    | start c =>
        simp only [stepA]
        split_ifs <;> rfl
    | settle err =>
        cases err with
        | none =>
            rcases hsp : s.pending with _ | ⟨w0, rest⟩ <;> simp only [stepA, hsp] <;>
              split_ifs <;> rfl
        | some e => exact absurd rfl (ha e)
    | resume =>
        rcases hsr : s.released with _ | ⟨r, rest⟩ <;> simp only [stepA, hsr] <;> rfl
    | flush =>
        simp only [stepA]
        split_ifs <;> rfl
  · intro c
    simp only [stepA]
    split_ifs
    · exact Or.inr (Or.inr (Or.inl rfl))
    · exact Or.inr (Or.inr (Or.inr (Or.inl rfl)))
    · exact Or.inr (Or.inr (Or.inr (Or.inr rfl)))
    · exact Or.inr (Or.inl ⟨s.nextId, rfl⟩)
    · exact Or.inl rfl
  · intro hz
    simp only [stepA]
    rw [if_pos hz]

/-- Witness for claim C7: the failure of the only running unit of a
capacity-one pool is appended to the previously empty collection. -/
theorem c7_witness :
    (stepA (execState (initState argOneOne) [.start true]) (.settle (some 5))).2.errors
      = (execState (initState argOneOne) [.start true]).errors ++ [5] :=
  (c7_task_failure_capture (execState (initState argOneOne) [.start true])).1 5
    (by decide)

/-- Claim C9: a non-numeric `numConcurrent` ( the string value ) yields the
default capacity four; a positive number that truncates toward zero to a
non-positive integer ( two fifths ) yields the minimum capacity one; and a
bare positive number passed in place of the options object sets
`numConcurrent` while `maxPending` defaults to one.  All three are plain
results of the total coercion, raising nothing. -/
theorem c9_constructor_coercion :
    (initState (.objA (.str "x") .undef)).numConcurrent = 4
    ∧ (initState (.objA (.num (.fin (Rat.divInt 2 5))) .undef)).numConcurrent = 1
    ∧ ∀ q : ℚ, 0 < q →
        (initState (.numA (.fin q))).numConcurrent = asPositiveInteger (.num (.fin q)) 4 1
        ∧ (initState (.numA (.fin q))).maxPending = 1 := by
  refine ⟨by decide, by decide, ?_⟩
  intro q hq
  have hf : ctorFalsy (.numA (.fin q)) = false := by
    simp only [ctorFalsy, decide_eq_false_iff_not]
    rintro (h0 | h0)
    · rw [JSNum.fin.injEq] at h0
      rw [h0] at hq
      exact lt_irrefl 0 hq
    · exact JSNum.noConfusion h0
  constructor
  · simp [initState, optsOf, hf]
  · simp [initState, optsOf, hf, asPositiveInteger]

/-- Witness for claim C9: a pool constructed from the bare number ten has
capacity ten and queue limit one. -/
theorem c9_witness :
    (initState (.numA (.fin 10))).numConcurrent = asPositiveInteger (.num (.fin 10)) 4 1
    ∧ (initState (.numA (.fin 10))).maxPending = 1 :=
  (c9_constructor_coercion.2.2 10 (by norm_num))

/-- Claim C10: for every numeric input the three guards of
`asPositiveInteger` are exhaustive — either the value is non-positive, or
its thirty-two bit truncation is non-positive, or that truncation is
positive — so the trailing branch returning the default ( commented as the
NaN case in the source ) is unreachable; in particular NaN and the number
two to the thirty-first power yield the minimum, not the default. -/
theorem c10_nan_branch_unreachable :
    (∀ n : JSNum, jsLeZero n = true ∨ toInt32 n ≤ 0 ∨ 0 < toInt32 n)
    ∧ (∀ d m : Int, asPositiveInteger (.num .nan) d m = m)
    ∧ (∀ d m : Int, asPositiveInteger (.num (.fin 2147483648)) d m = m) := by
  refine ⟨?_, ?_, ?_⟩
  · intro n
    right
    omega
  · intro d m
    rfl
  · intro d m
    have h32 : toInt32 (.fin 2147483648) = -2147483648 := by decide
    have hle : jsLeZero (.fin 2147483648) = false := by decide
    simp [asPositiveInteger, hle, h32]
